import Mathlib

/-!
Verification of the stencil image-processing pipeline and tiling engine.

The development shallowly embeds the pixel-transform pipeline
(`processStencil`, `analyzeThermalIssues`) and the tiling engine
(`segmentImage`, the segment-export content filter) of the repository.

Modelling conventions:
* Pixel buffers (JS `ImageData` / `Uint8ClampedArray`) are lists of RGBA
  pixels.  Every buffer access in the source is 4-byte aligned, so the
  pixel-granularity model is exact.
* JS floating-point arithmetic is modelled exactly over `ℚ` (the decimal
  literals `0.299`, `2.55`, ... are taken at their decimal value).
* Out-of-bounds reads (JS `undefined`, for which every `<`/`>` comparison
  is false) are modelled by `List.getD` with a default chosen so that the
  comparisons performed on it are false, matching JS semantics.
* The Sobel magnitude `Math.sqrt(gx*gx+gy*gy) * (edgeIntensity/20)` is an
  irrational real.  The code only ever compares such values (`>` against a
  threshold, `Math.max` during dilation), so the embedding carries the
  rational radicand `gx*gx+gy*gy` and the rational scale `edgeIntensity/20`
  and decides the comparison exactly with `sqrtMulGT`; the lemma
  `sqrtMulGT_correct` proves this encoding agrees with the real-number
  semantics.
-/

-- The rational arithmetic primitives are `@[irreducible]` in Batteries,
-- which only hides them from elaborator-level reduction; restoring the
-- default transparency lets `decide` evaluate the pipeline on concrete
-- inputs.  Soundness is unaffected: every proof still passes the kernel.
set_option allowUnsafeReducibility true
attribute [local semireducible] Rat.add Rat.mul Rat.sub Rat.inv Rat.ofScientific

/-- One RGBA pixel (four bytes of a `Uint8ClampedArray`). -/
structure Pixel where
  r : ℕ
  g : ℕ
  b : ℕ
  a : ℕ
deriving DecidableEq, Repr

/-- JS `ImageData`: width, height and the RGBA byte buffer (pixel granular). -/
structure ImageData where
  width : ℕ
  height : ℕ
  data : List Pixel
deriving DecidableEq, Repr

/-- The default returned for an out-of-bounds pixel read.  `r = 255` makes
`r < 50`, `r < 200`, `r < 250` false and `r > 100` true; `a = 0` makes
`a > 200` false — exactly the comparisons the source performs on an
out-of-bounds (`undefined`) read, all of which are false in JS. -/
def oobPx : Pixel := ⟨255, 255, 255, 0⟩

/-- The zero pixel (a freshly allocated `ImageData` byte buffer is zeroed). -/
def zeroPx : Pixel := ⟨0, 0, 0, 0⟩

/-- `isBlack` of `analyzeThermalIssues`: `data[idx] < 50 && data[idx+3] > 200`
(red byte below 50 and alpha above 200). -/
def isBlackPx (data : List Pixel) (p : ℕ) : Bool :=
  decide ((data.getD p oobPx).r < 50) && decide ((data.getD p oobPx).a > 200)

/-- Embedding of `analyzeThermalIssues` (src/utils/imageProcessing.ts:7-43).
Scans the interior of the processed buffer; on a black pixel it computes the
3×3 black-neighbour density (which the source never uses afterwards) and
writes the warning colour `(255,63,88,200)` when the guard
`r > 100 && r < 200 && alpha > 200` holds, where `r` is again the red byte of
the *processed* buffer (`originalData` is never read by the source). -/
def analyzeThermalIssues (originalData processedData : ImageData) : ImageData :=
  let w := processedData.width
  let h := processedData.height
  let data := processedData.data
  let coords := (List.range' 1 (h - 2)).flatMap fun y =>
    (List.range' 1 (w - 2)).map fun x => (y, x)
  let out := coords.foldl (fun acc yx =>
    let y := yx.1
    let x := yx.2
    let p := y * w + x
    if isBlackPx data p then
      -- density is computed but never used, exactly as in the source
      let density := ((List.range 3).flatMap fun dy =>
        (List.range 3).map fun dx => (dy, dx)).countP fun d =>
          isBlackPx data ((y + d.1 - 1) * w + (x + d.2 - 1))
      let px := data.getD p oobPx
      if px.r > 100 ∧ px.r < 200 ∧ px.a > 200 then
        acc.set p ⟨255, 63, 88, 200⟩
      else acc
    else acc) (List.replicate (w * h) zeroPx)
  ⟨w, h, out⟩

/-- The three processing modes of the pipeline. -/
inductive Mode where
  | edge
  | threshold
  | mixed
deriving DecidableEq, Repr

/-- `StencilSettings` (src/types.ts), restricted to the fields
`processStencil` reads.  JS numbers are modelled exactly over `ℚ`. -/
structure StencilSettings where
  contrast : ℚ
  brightness : ℚ
  edgeIntensity : ℚ
  thickness : ℚ
  detail : ℚ
  smoothing : ℚ
  mode : Mode
  invert : Bool
  flipX : Bool
  lineColor : String
  showThermalWarnings : Bool
deriving DecidableEq, Repr

/-- Value of one hexadecimal digit, accepting both cases as the
case-insensitive regex of `hexToRgb` does. -/
def hexDigit (c : Char) : Option ℕ :=
  if '0' ≤ c ∧ c ≤ '9' then some (c.toNat - '0'.toNat)
  else if 'a' ≤ c ∧ c ≤ 'f' then some (c.toNat - 'a'.toNat + 10)
  else if 'A' ≤ c ∧ c ≤ 'F' then some (c.toNat - 'A'.toNat + 10)
  else none

/-- Embedding of the `hexToRgb` helper of `processStencil`: parses
`#RRGGBB` (the `#` optional, hex digits case-insensitive) and falls back to
black on anything else. -/
def hexToRgb (s : String) : ℕ × ℕ × ℕ :=
  let cs := s.toList
  let cs := if cs.head? = some '#' then cs.tail else cs
  match cs with
  | [c1, c2, c3, c4, c5, c6] =>
      match hexDigit c1, hexDigit c2, hexDigit c3, hexDigit c4,
          hexDigit c5, hexDigit c6 with
      | some a, some b, some c, some d, some e, some f =>
          (16 * a + b, 16 * c + d, 16 * e + f)
      | _, _, _, _, _, _ => (0, 0, 0)
  | _ => (0, 0, 0)

/-- `contrastFactor = (259 * (contrast + 255)) / (255 * (259 - contrast))`. -/
def contrastFactor (s : StencilSettings) : ℚ :=
  (259 * (s.contrast + 255)) / (255 * (259 - s.contrast))

/-- `Math.max(0, Math.min(255, x))`. -/
def clamp255 (x : ℚ) : ℚ := max 0 (min 255 x)

/-- Pass 1 per-channel adjustment:
`clamp(contrastFactor * (c - 128) + 128 + brightness, 0, 255)`. -/
def adjustChannel (s : StencilSettings) (c : ℚ) : ℚ :=
  clamp255 (contrastFactor s * (c - 128) + 128 + s.brightness)

/-- `getLum`: `0.299*r + 0.587*g + 0.114*b`. -/
def luminance (r g b : ℚ) : ℚ :=
  299 / 1000 * r + 587 / 1000 * g + 114 / 1000 * b

/-- Pass 1: the grayscale buffer after contrast/brightness adjustment. -/
def gray0 (img : ImageData) (s : StencilSettings) : List ℚ :=
  img.data.map fun p =>
    luminance (adjustChannel s (p.r : ℚ)) (adjustChannel s (p.g : ℚ))
      (adjustChannel s (p.b : ℚ))

/-- `blurRadius = Math.floor(settings.smoothing)` (only evaluated when
`smoothing > 0`, so the floor is a natural number). -/
def blurRadius (s : StencilSettings) : ℕ := (Rat.floor s.smoothing).toNat

/-- Pass 2: edge-aware box blur of radius `r`; out-of-bounds samples are
excluded from both the sum and the averaging denominator. -/
def boxBlur (g : List ℚ) (w h r : ℕ) : List ℚ :=
  (List.range (w * h)).map fun i =>
    let x := i % w
    let y := i / w
    let offs := (List.range (2 * r + 1)).flatMap fun dy =>
      (List.range (2 * r + 1)).map fun dx => (dy, dx)
    let cells := offs.filterMap fun d =>
      let ny : ℤ := (y : ℤ) + d.1 - r
      let nx : ℤ := (x : ℤ) + d.2 - r
      if 0 ≤ ny ∧ ny < (h : ℤ) ∧ 0 ≤ nx ∧ nx < (w : ℤ) then
        some (g.getD (ny.toNat * w + nx.toNat) 0)
      else none
    cells.sum / (cells.length : ℚ)

/-- The grayscale buffer after the optional smoothing pass. -/
def grayB (img : ImageData) (s : StencilSettings) : List ℚ :=
  if 0 < s.smoothing then
    boxBlur (gray0 img s) img.width img.height (blurRadius s)
  else gray0 img s

/-- Pass 3 (edge/mixed): the squared Sobel gradient magnitude `gx²+gy²`.
The border ring of one pixel is left at zero.  The code stores
`sqrt(gx²+gy²) * (edgeIntensity/20)`; the embedding carries the radicand
`gx²+gy²`, the value being `Real.sqrt radicand * edgeScale`. -/
def sobelRad (img : ImageData) (s : StencilSettings) : List ℚ :=
  let g := grayB img s
  let w := img.width
  let h := img.height
  (List.range (w * h)).map fun i =>
    let x := i % w
    let y := i / w
    if 1 ≤ y ∧ y < h - 1 ∧ 1 ≤ x ∧ x < w - 1 then
      let gv := fun (yy xx : ℕ) => g.getD (yy * w + xx) 0
      let gx := -gv (y - 1) (x - 1) + gv (y - 1) (x + 1)
        - 2 * gv y (x - 1) + 2 * gv y (x + 1)
        - gv (y + 1) (x - 1) + gv (y + 1) (x + 1)
      let gy := -gv (y - 1) (x - 1) - 2 * gv (y - 1) x - gv (y - 1) (x + 1)
        + gv (y + 1) (x - 1) + 2 * gv (y + 1) x + gv (y + 1) (x + 1)
      gx * gx + gy * gy
    else 0

/-- The common scale `edgeIntensity / 20` applied to every Sobel magnitude. -/
def edgeScale (s : StencilSettings) : ℚ := s.edgeIntensity / 20

/-- `threshold = settings.detail * 2.55`. -/
def thresholdValue (s : StencilSettings) : ℚ := s.detail * (51 / 20)

/-- Dilation radius `Math.floor(thickness / 2)` (evaluated when
`thickness > 1`, so nonnegative). -/
def dilationRadius (s : StencilSettings) : ℕ :=
  (Rat.floor (s.thickness / 2)).toNat

/-- The dilated magnitude map, in radicand representation.  The source takes
`maxVal = Math.max(0, ...window values...)` over values
`sqrt(rad) * edgeScale`.  When `edgeScale ≥ 0` those values are nonnegative
and the max is `sqrt(window max of rads) * edgeScale`; when `edgeScale < 0`
every value is nonpositive, so the max is the initial `0 = sqrt 0 * edgeScale`
(radicand `0`).  `thickness ≤ 1` passes the map through unchanged. -/
def dilatedRad (img : ImageData) (s : StencilSettings) : List ℚ :=
  let rad := sobelRad img s
  let w := img.width
  let h := img.height
  if 1 < s.thickness then
    if edgeScale s < 0 then List.replicate (w * h) 0
    else
      let r := dilationRadius s
      (List.range (w * h)).map fun i =>
        let x := i % w
        let y := i / w
        let offs := (List.range (2 * r + 1)).flatMap fun dy =>
          (List.range (2 * r + 1)).map fun dx => (dy, dx)
        let cells := offs.filterMap fun d =>
          let ny : ℤ := (y : ℤ) + d.1 - r
          let nx : ℤ := (x : ℤ) + d.2 - r
          if 0 ≤ ny ∧ ny < (h : ℤ) ∧ 0 ≤ nx ∧ nx < (w : ℤ) then
            some (rad.getD (ny.toNat * w + nx.toNat) 0)
          else none
        cells.foldl max 0
  else rad

/-- Decides `Real.sqrt m * k > t` for rationals `m ≥ 0`, `k`, `t` exactly
(see `sqrtMulGT_correct`). -/
def sqrtMulGT (m k t : ℚ) : Bool :=
  if 0 < k then decide (t < 0) || decide (t * t < m * (k * k))
  else if k = 0 then decide (t < 0)
  else decide (t < 0) && decide (m * (k * k) < t * t)

/-- The edge criterion `dilatedMagnitude > threshold` of the compositor,
decided in radicand representation. -/
def edgeHit (img : ImageData) (s : StencilSettings) (i : ℕ) : Bool :=
  sqrtMulGT ((dilatedRad img s).getD i 0) (edgeScale s) (thresholdValue s)

/-- The per-pixel line classification before the invert step, per mode:
edge: `magnitude > threshold`; mixed: that OR the raw criterion
`grayBuffer[i] > 128 ? false : true`; threshold: `grayBuffer[i] < threshold`. -/
def isLinePre (img : ImageData) (s : StencilSettings) (i : ℕ) : Bool :=
  match s.mode with
  | .edge => edgeHit img s i
  | .mixed =>
      edgeHit img s i ||
        (if (grayB img s).getD i 0 > 128 then false else true)
  | .threshold => decide ((grayB img s).getD i 0 < thresholdValue s)

/-- The final line classification: `if (settings.invert) isLine = !isLine`. -/
def isLineAt (img : ImageData) (s : StencilSettings) (i : ℕ) : Bool :=
  if s.invert then !(isLinePre img s i) else isLinePre img s i

/-- The number of line-classified pixels of the output. -/
def lineCount (img : ImageData) (s : StencilSettings) : ℕ :=
  (List.range (img.width * img.height)).countP fun i => isLineAt img s i

/-- The `finalBuffer` written by pass 3: `lineColor` opaque on line pixels,
opaque white elsewhere. -/
def finalBuffer (img : ImageData) (s : StencilSettings) : List Pixel :=
  let rgb := hexToRgb s.lineColor
  (List.range (img.width * img.height)).map fun i =>
    if isLineAt img s i then ⟨rgb.1, rgb.2.1, rgb.2.2, 255⟩
    else ⟨255, 255, 255, 255⟩

/-- The final render loop: writes left-to-right while reading the row
mirrored (`readX = width - 1 - x`) when `flipX` is set. -/
def renderData (img : ImageData) (s : StencilSettings) : List Pixel :=
  let w := img.width
  (List.range (w * img.height)).map fun i =>
    let x := i % w
    let rx := if s.flipX then w - 1 - x else x
    (finalBuffer img s).getD (i / w * w + rx) zeroPx

/-- Result of `processStencil`: the processed buffer and the optional
thermal-warning overlay. -/
structure ProcessResult where
  processed : ImageData
  thermalWarnings : Option ImageData
deriving DecidableEq, Repr

/-- Embedding of `processStencil` (src/utils/imageProcessing.ts:49-227). -/
def processStencil (img : ImageData) (s : StencilSettings) : ProcessResult :=
  let processed : ImageData := ⟨img.width, img.height, renderData img s⟩
  ⟨processed,
    if s.showThermalWarnings then some (analyzeThermalIssues img processed)
    else none⟩

/-- The read-side horizontal reflection used by the render loop
(`readX = width - 1 - x`), as a standalone operation on a buffer. -/
def mirrorImage (im : ImageData) : ImageData :=
  ⟨im.width, im.height,
    (List.range (im.width * im.height)).map fun i =>
      im.data.getD (i / im.width * im.width + (im.width - 1 - i % im.width))
        zeroPx⟩

/-- Toggling the `invert` flag once. -/
def toggleInvert (s : StencilSettings) : StencilSettings :=
  { s with invert := !s.invert }

/-- `Math.max(lo, Math.min(hi, x))`. -/
def clampQ (lo hi x : ℚ) : ℚ := max lo (min hi x)

/-- Modelled from the spec: the documented Settings ranges (spec §3);
`processStencil` itself contains no such validation, so this clamping
operation exists only on the spec side, for comparison with the code. -/
def clampSettings (s : StencilSettings) : StencilSettings :=
  { s with
    contrast := clampQ (-100) 100 s.contrast
    brightness := clampQ (-100) 100 s.brightness
    edgeIntensity := clampQ 0 200 s.edgeIntensity
    thickness := clampQ 1 10 s.thickness
    detail := clampQ 0 100 s.detail
    smoothing := clampQ 0 10 s.smoothing }

/-- All numeric Settings fields inside their documented bounds (spec §3). -/
def inRangeSettings (s : StencilSettings) : Prop :=
  -100 ≤ s.contrast ∧ s.contrast ≤ 100 ∧
  -100 ≤ s.brightness ∧ s.brightness ≤ 100 ∧
  0 ≤ s.edgeIntensity ∧ s.edgeIntensity ≤ 200 ∧
  1 ≤ s.thickness ∧ s.thickness ≤ 10 ∧
  0 ≤ s.detail ∧ s.detail ≤ 100 ∧
  0 ≤ s.smoothing ∧ s.smoothing ≤ 10

instance (s : StencilSettings) : Decidable (inRangeSettings s) := by
  unfold inRangeSettings
  infer_instance

/-- One tile source rectangle of `segmentImage` (in signed coordinates,
just as JS computes them). -/
structure SegRect where
  x : ℤ
  y : ℤ
  w : ℤ
  h : ℤ
deriving DecidableEq, Repr

/-- `segmentWidth = Math.ceil(width / cols)` (only consumed when
`cols > 0`; the source divides by zero otherwise but never reads the
result, since the column loop is then empty). -/
def cellSize (len parts : ℕ) : ℕ := (len + parts - 1) / parts

/-- The source rectangle of the tile in row `r`, column `c` of
`segmentImage` (src/utils/imageProcessing.ts:250-258), with the fixed
`overlap = 50`. -/
def tileRect (width height rows cols r c : ℕ) : SegRect :=
  let overlap : ℤ := 50
  let cw : ℤ := cellSize width cols
  let ch : ℤ := cellSize height rows
  let leadC : ℤ := if 0 < c then overlap else 0
  let trailC : ℤ := if c < cols - 1 then overlap else 0
  let leadR : ℤ := if 0 < r then overlap else 0
  let trailR : ℤ := if r < rows - 1 then overlap else 0
  let x : ℤ := max 0 ((c : ℤ) * cw - leadC)
  let y : ℤ := max 0 ((r : ℤ) * ch - leadR)
  ⟨x, y, min ((width : ℤ) - x) (cw + leadC + trailC),
    min ((height : ℤ) - y) (ch + leadR + trailR)⟩

/-- Embedding of `segmentImage`: the list of tile source rectangles, in the
row-major order the source pushes its parts. -/
def segmentRects (width height rows cols : ℕ) : List SegRect :=
  (List.range rows).flatMap fun r =>
    (List.range cols).map fun c => tileRect width height rows cols r c

/-- Membership of a point in a tile source rectangle. -/
def inRect (t : SegRect) (px py : ℤ) : Prop :=
  t.x ≤ px ∧ px < t.x + t.w ∧ t.y ≤ py ∧ py < t.y + t.h

/-- The core cell of tile `(r, c)`: its source rectangle with the leading
and trailing 50-pixel overlap bands removed, i.e. the part of the grid slot
`[c*cellW, (c+1)*cellW) × [r*cellH, (r+1)*cellH)` that lies on the board. -/
def coreRegion (width height rows cols r c : ℕ) (px py : ℕ) : Prop :=
  let cw := cellSize width cols
  let ch := cellSize height rows
  c * cw ≤ px ∧ px < min ((c + 1) * cw) width ∧
  r * ch ≤ py ∧ py < min ((r + 1) * ch) height

/-- An all-white opaque pixel. -/
def whitePx : Pixel := ⟨255, 255, 255, 255⟩

/-- The stride content scan of the segment exporter
(src/components/SegmentationBoard.tsx:356-364): samples every 100th byte —
i.e. every 25th pixel, always the R/G/B channels of one pixel — and flags
content when a sampled channel is below 250.  (An out-of-bounds JS read is
`undefined`, for which `< 250` is false; `whitePx` as `getD` default has
the same effect.) -/
def tileHasContent (data : List Pixel) : Bool :=
  (List.range ((data.length + 24) / 25)).any fun k =>
    let p := data.getD (25 * k) whitePx
    decide (p.r < 250) || decide (p.g < 250) || decide (p.b < 250)

/-- Outcome of the segment export: either the no-content signal (the
source alerts "No active segments found" and writes nothing) or the list of
non-blank tiles that are emitted as files. -/
inductive ExportOutcome where
  | noContent
  | files (segs : List (List Pixel))
deriving DecidableEq, Repr

/-- Embedding of the export path of `SegmentationBoard`: each cropped tile
is kept only if the content scan flags it, and an empty remainder raises
the no-content signal instead of emitting anything. -/
def exportSegments (tiles : List (List Pixel)) : ExportOutcome :=
  let kept := tiles.filter tileHasContent
  if kept.isEmpty then .noContent else .files kept

/-! Concrete inputs used by witnesses and counterexamples. -/

/-- A 1×1 mid-gray opaque image. -/
def img1 : ImageData := ⟨1, 1, [⟨128, 128, 128, 255⟩]⟩

/-- A 4×4 uniform mid-gray opaque image (spec §8, scenario 1). -/
def img8 : ImageData := ⟨4, 4, List.replicate 16 ⟨128, 128, 128, 255⟩⟩

/-- A 1×1 image with all channels at 100. -/
def img100 : ImageData := ⟨1, 1, [⟨100, 100, 100, 255⟩]⟩

/-- Scenario-1 settings: `contrast = 0`, `brightness = 0`,
`mode = threshold`, `detail = 50`. -/
def s8 : StencilSettings :=
  ⟨0, 0, 80, 2, 50, 0, .threshold, false, false, "#000000", false⟩

/-- Defaults with `mode = mixed`. -/
def sMixed : StencilSettings :=
  ⟨0, 0, 80, 2, 50, 0, .mixed, false, false, "#000000", false⟩

/-- Threshold mode with `invert = true`. -/
def sThrInv : StencilSettings :=
  ⟨0, 0, 80, 2, 50, 0, .threshold, true, false, "#000000", false⟩

/-- Threshold mode, out-of-range `contrast = 200`, `detail = 10`. -/
def sC200 : StencilSettings :=
  ⟨200, 0, 80, 2, 10, 0, .threshold, false, false, "#000000", false⟩

/-! ## Helper lemmas -/

/-- A fold whose step function never changes the accumulator returns the
initial accumulator. -/
theorem foldl_const {α β : Type} (f : α → β → α) (l : List β) (init : α)
    (h : ∀ acc b, b ∈ l → f acc b = acc) : l.foldl f init = init := by
  induction l generalizing init with
  | nil => rfl
  | cons hd tl ih =>
      rw [List.foldl_cons, h init hd (List.mem_cons_self hd tl)]
      exact ih init fun acc b hb => h acc b (List.mem_cons_of_mem hd hb)

/-- Indexing a mapped range. -/
theorem getD_map_range {α : Type} (n : ℕ) (f : ℕ → α) (j : ℕ) (d : α)
    (hj : j < n) : ((List.range n).map f).getD j d = f j := by
  rw [List.getD_eq_getElem?_getD, List.getElem?_map, List.getElem?_range hj]
  rfl

/-! ## C10: the thermal overlay is always fully transparent -/

/-- C10: For every pair of input buffers of equal dimensions, the thermal
analyzer returns a fully transparent (all-zero) overlay: the guard requires
the same red byte to be `< 50` (via `isBlack`) and `> 100`, which is
unsatisfiable, so the warning-writing branch is unreachable. -/
theorem thermal_overlay_all_zero (o p : ImageData)
    (hw : o.width = p.width) (hh : o.height = p.height) :
    analyzeThermalIssues o p =
      ⟨p.width, p.height, List.replicate (p.width * p.height) zeroPx⟩ := by
  unfold analyzeThermalIssues
  refine congrArg (ImageData.mk p.width p.height) ?_
  apply foldl_const
  intro acc yx _
  dsimp only
  cases hb : isBlackPx p.data (yx.1 * p.width + yx.2) with
  | false => simp only [Bool.false_eq_true, if_false]
  | true =>
      simp only [if_true]
      unfold isBlackPx at hb
      rw [Bool.and_eq_true, decide_eq_true_eq, decide_eq_true_eq] at hb
      have hcond : ¬ ((p.data.getD (yx.1 * p.width + yx.2) oobPx).r > 100 ∧
          (p.data.getD (yx.1 * p.width + yx.2) oobPx).r < 200 ∧
          (p.data.getD (yx.1 * p.width + yx.2) oobPx).a > 200) := by
        omega
      rw [if_neg hcond]

/-- Witness for C10 at a concrete pair of equal-dimension 1×1 buffers. -/
theorem thermal_overlay_all_zero_witness :
    (⟨1, 1, [⟨150, 150, 150, 255⟩]⟩ : ImageData).width =
        (⟨1, 1, [⟨0, 0, 0, 255⟩]⟩ : ImageData).width ∧
      analyzeThermalIssues ⟨1, 1, [⟨150, 150, 150, 255⟩]⟩ ⟨1, 1, [⟨0, 0, 0, 255⟩]⟩ =
        ⟨1, 1, List.replicate 1 zeroPx⟩ :=
  ⟨rfl, thermal_overlay_all_zero _ _ rfl rfl⟩

/-! ## C1: thermal risk flags (code bug) -/

/-- C1 (code-bug evaluation): a 3×3 all-(150,150,150,255) original whose
processed buffer is all-(0,0,0,255) black lines.  The original centre pixel
has red `150 ∈ [100,200)` and alpha `255 > 200`, and the centre of the
composited buffer is a black line pixel, so the claim demands the warning
colour with alpha `200` at the centre of the overlay; the code leaves the
whole overlay transparent (the centre pixel stays all-zero), because it
tests the processed red channel — which `isBlack` already bounded below 50 —
instead of `originalData`, which it never reads. -/
theorem thermal_center_not_flagged :
    (analyzeThermalIssues
        ⟨3, 3, List.replicate 9 ⟨150, 150, 150, 255⟩⟩
        ⟨3, 3, List.replicate 9 ⟨0, 0, 0, 255⟩⟩).data.getD 4 oobPx = zeroPx := by
  decide

/-! ## C8: scenario 1, 4×4 mid-gray in threshold mode -/

/-- C8: the 4×4 uniform mid-gray image with `contrast = 0`,
`brightness = 0`, `mode = threshold`, `detail = 50` yields threshold
exactly `127.5 = 255/2`; `128 < 127.5` fails, every pixel is classified
background, and the output buffer is opaque white everywhere. -/
theorem midgray_threshold_all_white :
    thresholdValue s8 = 255 / 2 ∧
      ¬ ((128 : ℚ) < thresholdValue s8) ∧
      lineCount img8 s8 = 0 ∧
      (processStencil img8 s8).processed =
        ⟨4, 4, List.replicate 16 whitePx⟩ := by
  refine ⟨by decide, by decide, by decide, by decide⟩

/-! ## C2: mixed-mode classification -/

/-- C2 counterexample: on the 1×1 mid-gray image with default mixed-mode
settings the smoothed luminance is exactly `128` and the dilated magnitude
is zero, so the claimed criterion
`dilatedMagnitude > detail*2.55 OR L < 128` is false — yet the code
classifies the pixel as a line (it tests `grayBuffer[i] > 128 ? false :
true`, i.e. `L ≤ 128`, not `L < 128`). -/
theorem mixed_strict_lt_fails :
    isLinePre img1 sMixed 0 = true ∧
      ¬ (edgeHit img1 sMixed 0 = true ∨
          (grayB img1 sMixed).getD 0 0 < 128) := by
  refine ⟨by decide, ?_⟩
  intro h
  rcases h with h | h
  · exact absurd h (by decide)
  · exact absurd h (by decide)

/-- C2 amended: in mixed mode a pixel is classified as a line (before the
invert step) iff the dilated edge magnitude exceeds `detail*2.55` OR the
smoothed luminance satisfies `L ≤ 128` (not the strict `L < 128`). -/
theorem mixed_classification (img : ImageData) (s : StencilSettings) (i : ℕ)
    (hm : s.mode = .mixed) :
    isLinePre img s i = true ↔
      (edgeHit img s i = true ∨ (grayB img s).getD i 0 ≤ 128) := by
  unfold isLinePre
  rw [hm]
  by_cases hg : (grayB img s).getD i 0 > 128
  · rw [if_pos hg]
    simp only [Bool.or_false]
    constructor
    · intro h
      exact Or.inl h
    · intro h
      rcases h with h | h
      · exact h
      · exact absurd hg (not_lt.mpr h)
  · rw [if_neg hg]
    simp only [Bool.or_true, true_iff]
    exact Or.inr (not_lt.mp hg)

/-- Witness for C2's amended theorem at the 1×1 mid-gray image. -/
theorem mixed_classification_witness :
    sMixed.mode = Mode.mixed ∧
      (isLinePre img1 sMixed 0 = true ↔
        (edgeHit img1 sMixed 0 = true ∨ (grayB img1 sMixed).getD 0 0 ≤ 128)) :=
  ⟨rfl, mixed_classification img1 sMixed 0 rfl⟩

/-! ## C6: monotonicity of the threshold-mode line count in detail -/

/-- `countP` is monotone under pointwise implication of the predicates. -/
theorem countP_mono {α : Type} (l : List α) (p q : α → Bool)
    (h : ∀ a ∈ l, p a = true → q a = true) : l.countP p ≤ l.countP q := by
  induction l with
  | nil => simp [List.countP_nil]
  | cons hd tl ih =>
      rw [List.countP_cons, List.countP_cons]
      have htl := ih fun a ha => h a (List.mem_cons_of_mem hd ha)
      cases hp : p hd with
      | false => cases q hd <;> simp <;> omega
      | true =>
          rw [h hd (List.mem_cons_self hd tl) hp]
          omega

/-- C6 counterexample: with `invert = true` (still `mode = threshold`),
raising `detail` from 40 to 60 on the 1×1 mid-gray image *decreases* the
line-pixel count from 1 to 0, refuting the claim for arbitrary fixed
Settings in threshold mode. -/
theorem threshold_monotonicity_fails_with_invert :
    (40 : ℚ) ≤ 60 ∧
      lineCount img1 { sThrInv with detail := 40 } = 1 ∧
      lineCount img1 { sThrInv with detail := 60 } = 0 := by
  refine ⟨by norm_num, by decide, by decide⟩

/-- C6 amended: in threshold mode *with `invert = false`*, increasing
`detail` never decreases the number of line-classified pixels. -/
theorem threshold_detail_monotone (img : ImageData) (s : StencilSettings)
    (d1 d2 : ℚ) (hm : s.mode = .threshold) (hi : s.invert = false)
    (h12 : d1 ≤ d2) :
    lineCount img { s with detail := d1 } ≤
      lineCount img { s with detail := d2 } := by
  obtain ⟨c, b, e, t, d, sm, m, inv, fx, lc, sw⟩ := s
  simp only at hm hi
  subst hm hi
  unfold lineCount
  apply countP_mono
  intro i _
  have hgr : grayB img ⟨c, b, e, t, d1, sm, Mode.threshold, false, fx, lc, sw⟩
      = grayB img ⟨c, b, e, t, d2, sm, Mode.threshold, false, fx, lc, sw⟩ := rfl
  simp only [isLineAt, isLinePre, thresholdValue, Bool.false_eq_true, if_false,
    decide_eq_true_eq, hgr]
  intro h
  exact lt_of_lt_of_le h
    (mul_le_mul_of_nonneg_right h12 (by norm_num : (0 : ℚ) ≤ 51 / 20))

/-- Witness for C6's amended theorem on the 1×1 mid-gray image,
`detail 10 ≤ 90`. -/
theorem threshold_detail_monotone_witness :
    s8.mode = Mode.threshold ∧ s8.invert = false ∧ (10 : ℚ) ≤ 90 ∧
      lineCount img1 { s8 with detail := 10 } ≤
        lineCount img1 { s8 with detail := 90 } :=
  ⟨rfl, rfl, by norm_num,
    threshold_detail_monotone img1 s8 10 90 rfl rfl (by norm_num)⟩

/-! ## C3: out-of-range Settings are not clamped -/

/-- C3 counterexample: on a 1×1 all-100 image in threshold mode, the
out-of-range `contrast = 200` yields a different output than the same
Settings clamped to `contrast = 100` (the unclamped factor drives the
channel to 0, below the threshold 25.5; the clamped one leaves it at
64.504, above it), so the pipeline does not behave as if fields were
clamped before use. -/
theorem unclamped_contrast_differs :
    ¬ inRangeSettings sC200 ∧
      (processStencil img100 sC200).processed ≠
        (processStencil img100 (clampSettings sC200)).processed := by
  constructor
  · intro h
    have := h.2.1
    norm_num [sC200] at this
  · decide

/-- C3 amended: the pipeline applies Settings fields as given (no field
validation exists in `processStencil`); for Settings already inside the
documented bounds the spec-side clamping is the identity, so the result
equals the result on the clamped Settings.  Out-of-range fields are *not*
clamped — see the counterexample. -/
theorem clamp_noop_in_range (img : ImageData) (s : StencilSettings)
    (h : inRangeSettings s) :
    processStencil img s = processStencil img (clampSettings s) := by
  obtain ⟨h1, h2, h3, h4, h5, h6, h7, h8, h9, h10, h11, h12⟩ := h
  have hs : clampSettings s = s := by
    obtain ⟨c, b, e, t, d, sm, m, inv, fx, lc, sw⟩ := s
    simp only at h1 h2 h3 h4 h5 h6 h7 h8 h9 h10 h11 h12
    simp only [clampSettings, clampQ, StencilSettings.mk.injEq, and_true]
    refine ⟨?_, ?_, ?_, ?_, ?_, ?_⟩ <;>
      rw [min_eq_right (by assumption), max_eq_right (by assumption)]
  rw [hs]

/-- Witness for C3's amended theorem at the in-range scenario-1 settings. -/
theorem clamp_noop_in_range_witness :
    inRangeSettings s8 ∧
      processStencil img1 s8 = processStencil img1 (clampSettings s8) :=
  ⟨by norm_num [inRangeSettings, s8],
    clamp_noop_in_range img1 s8 (by norm_num [inRangeSettings, s8])⟩

/-! ## C9: flip and invert are involutive -/

/-- Quotient of a row-major index built from row `y` and column `r < w`. -/
theorem rowmajor_div (w y r : ℕ) (hw : 0 < w) (hr : r < w) :
    (y * w + r) / w = y := by
  rw [Nat.mul_comm, Nat.mul_add_div hw, Nat.div_eq_of_lt hr, Nat.add_zero]

/-- Remainder of a row-major index built from row `y` and column `r < w`. -/
theorem rowmajor_mod (w y r : ℕ) (hw : 0 < w) (hr : r < w) :
    (y * w + r) % w = r := by
  rw [Nat.mul_comm, Nat.mul_add_mod, Nat.mod_eq_of_lt hr]

/-- C9: the `flipX` read-side reflection is involutive — mirroring the
output produced with `flipX = true` restores the buffer produced with
`flipX = false` exactly — and toggling `invert` twice yields the identical
processing result for every image and Settings. -/
theorem flip_invert_involutive (img : ImageData) (s : StencilSettings) :
    mirrorImage (processStencil img { s with flipX := true }).processed =
        (processStencil img { s with flipX := false }).processed ∧
      processStencil img (toggleInvert (toggleInvert s)) =
        processStencil img s := by
  constructor
  · show mirrorImage ⟨img.width, img.height,
        renderData img { s with flipX := true }⟩ =
      ⟨img.width, img.height, renderData img { s with flipX := false }⟩
    unfold mirrorImage
    dsimp only
    refine congrArg (ImageData.mk img.width img.height) ?_
    conv_lhs => rw [renderData]
    conv_rhs => rw [renderData]
    dsimp only
    apply List.map_congr_left
    intro i hi
    rw [List.mem_range] at hi
    have hw : 0 < img.width := by
      rcases Nat.eq_zero_or_pos img.width with h0 | h
      · rw [h0] at hi
        omega
      · exact h
    have hfbt : finalBuffer img { s with flipX := true } = finalBuffer img s :=
      rfl
    have hfbf : finalBuffer img { s with flipX := false } = finalBuffer img s :=
      rfl
    rw [hfbt, hfbf]
    have hx : i % img.width < img.width := Nat.mod_lt _ hw
    have hy : i / img.width < img.height := by
      rw [Nat.div_lt_iff_lt_mul hw, Nat.mul_comm]
      exact hi
    have hr : img.width - 1 - i % img.width < img.width := by omega
    have hj : i / img.width * img.width + (img.width - 1 - i % img.width) <
        img.width * img.height := by
      have hstep : i / img.width * img.width + img.width ≤
          img.width * img.height := by
        have h1 : (i / img.width + 1) * img.width ≤
            img.height * img.width :=
          Nat.mul_le_mul_right _ (Nat.succ_le_of_lt hy)
        rw [Nat.succ_mul] at h1
        rw [Nat.mul_comm img.width img.height]
        exact h1
      omega
    rw [getD_map_range _ _ _ _ hj,
      rowmajor_div _ _ _ hw hr, rowmajor_mod _ _ _ hw hr]
    have hxx : img.width - 1 - (img.width - 1 - i % img.width) = i % img.width := by
      omega
    rw [hxx]
    simp
  · have ht : toggleInvert (toggleInvert s) = s := by
      obtain ⟨c, b, e, t, d, sm, m, inv, fx, lc, sw⟩ := s
      simp [toggleInvert]
    rw [ht]

/-! ## C5: segmentImage performs no validation -/

/-- C5 amended: `segmentImage` contains no dimension or grid validation and
raises no error: it always emits exactly `rows * cols` tile rectangles —
an empty list when `rows = 0` or `cols = 0` (the loops simply do not run),
and `rows * cols` degenerate rectangles for a zero-dimension source. -/
theorem segmentRects_length (w h rows cols : ℕ) :
    (segmentRects w h rows cols).length = rows * cols := by
  unfold segmentRects
  simp [List.length_flatMap, Function.comp_def, List.map_const',
    List.sum_replicate, smul_eq_mul]

/-- C5 counterexample: a zero-dimension (0×0) source with `rows = cols = 1`
is not rejected — `segmentImage` still produces one (degenerate, zero-area)
tile rather than raising a `ConfigurationError` and producing no tiles. -/
theorem segment_zero_dim_produces_tile :
    segmentRects 0 0 1 1 = [⟨0, 0, 0, 0⟩] := by
  decide

/-! ## C7: tile coverage -/

/-- One-dimensional covering: the slots `[c*cellSize, (c+1)*cellSize) ∩ [0,N)`
for `c < parts` exactly cover `[0, N)`. -/
theorem cell_cover_1d (N parts : ℕ) (hN : 1 ≤ N) (hp : 1 ≤ parts) (t : ℕ) :
    t < N ↔ ∃ c, c < parts ∧ c * cellSize N parts ≤ t ∧
      t < min ((c + 1) * cellSize N parts) N := by
  set cw := cellSize N parts with hcwdef
  have hcw : 1 ≤ cw := by
    rw [hcwdef]
    unfold cellSize
    rw [Nat.le_div_iff_mul_le hp]
    omega
  have hNle : N ≤ parts * cw := by
    have hdm : parts * ((N + parts - 1) / parts) + (N + parts - 1) % parts =
        N + parts - 1 := Nat.div_add_mod _ _
    have hmlt : (N + parts - 1) % parts < parts := Nat.mod_lt _ hp
    rw [hcwdef]
    unfold cellSize
    omega
  constructor
  · intro ht
    refine ⟨t / cw, ?_, ?_, ?_⟩
    · have h1 : t / cw * cw ≤ t := Nat.div_mul_le_self t cw
      have h2 : t / cw * cw < parts * cw := by omega
      exact Nat.lt_of_mul_lt_mul_right h2
    · exact Nat.div_mul_le_self t cw
    · refine Nat.lt_min.mpr ⟨?_, ht⟩
      have hdm : cw * (t / cw) + t % cw = t := Nat.div_add_mod t cw
      have hdm' : t / cw * cw + t % cw = t := by
        rw [Nat.mul_comm] at hdm
        exact hdm
      have hmlt : t % cw < cw := Nat.mod_lt _ hcw
      rw [Nat.succ_mul]
      omega
  · rintro ⟨c, hc, h1, h2⟩
    exact lt_of_lt_of_le h2 (min_le_right _ _)

/-- One-dimensional band bound: a point of the core slot of cell `c` lies
inside the tile's `[x, x + w)` interval as computed by `tileRect` (leading
band clipped at 0, width clipped to the board). -/
theorem band_bound_1d (N parts c t : ℕ) (hc : c < parts)
    (h1 : c * cellSize N parts ≤ t)
    (h2 : t < min ((c + 1) * cellSize N parts) N) :
    max 0 ((c : ℤ) * (cellSize N parts : ℤ) - (if 0 < c then (50 : ℤ) else 0)) ≤
        (t : ℤ) ∧
      (t : ℤ) <
        max 0 ((c : ℤ) * (cellSize N parts : ℤ) -
            (if 0 < c then (50 : ℤ) else 0)) +
          min ((N : ℤ) -
              max 0 ((c : ℤ) * (cellSize N parts : ℤ) -
                (if 0 < c then (50 : ℤ) else 0)))
            ((cellSize N parts : ℤ) + (if 0 < c then (50 : ℤ) else 0) +
              (if c < parts - 1 then (50 : ℤ) else 0)) := by
  rw [Nat.lt_min] at h2
  obtain ⟨h2a, h2b⟩ := h2
  have h1' : (c : ℤ) * (cellSize N parts : ℤ) ≤ (t : ℤ) := by exact_mod_cast h1
  have h2a' : (t : ℤ) < (c : ℤ) * (cellSize N parts : ℤ) +
      (cellSize N parts : ℤ) := by
    have : (t : ℤ) < ((c : ℤ) + 1) * (cellSize N parts : ℤ) := by
      exact_mod_cast h2a
    nlinarith [this]
  have h2b' : (t : ℤ) < (N : ℤ) := by exact_mod_cast h2b
  split_ifs <;> omega

/-- C7: for every `rows, cols ≥ 1` and `W×H` board with `W, H ≥ 1`, the tile
source rectangles of `segmentImage`, with their leading/trailing 50-pixel
overlap bands removed (`coreRegion`), exactly cover `[0,W)×[0,H)`: a point
lies on the board iff some grid cell's core contains it, and every core is
contained in the corresponding emitted tile rectangle. -/
theorem tile_coverage (W H rows cols : ℕ) (hr : 1 ≤ rows) (hc : 1 ≤ cols)
    (hW : 1 ≤ W) (hH : 1 ≤ H) (px py : ℕ) :
    ((px < W ∧ py < H) ↔
      ∃ r, r < rows ∧ ∃ c, c < cols ∧ coreRegion W H rows cols r c px py) ∧
    (∀ r c, r < rows → c < cols → coreRegion W H rows cols r c px py →
      tileRect W H rows cols r c ∈ segmentRects W H rows cols ∧
        inRect (tileRect W H rows cols r c) (px : ℤ) (py : ℤ)) := by
  constructor
  · constructor
    · rintro ⟨hx, hy⟩
      obtain ⟨c, hcp, hc1, hc2⟩ := (cell_cover_1d W cols hW hc px).mp hx
      obtain ⟨r, hrp, hr1, hr2⟩ := (cell_cover_1d H rows hH hr py).mp hy
      exact ⟨r, hrp, c, hcp, hc1, hc2, hr1, hr2⟩
    · rintro ⟨r, hrp, c, hcp, hc1, hc2, hr1, hr2⟩
      exact ⟨(cell_cover_1d W cols hW hc px).mpr ⟨c, hcp, hc1, hc2⟩,
        (cell_cover_1d H rows hH hr py).mpr ⟨r, hrp, hr1, hr2⟩⟩
  · intro r c hrp hcp hcore
    obtain ⟨hc1, hc2, hr1, hr2⟩ := hcore
    constructor
    · unfold segmentRects
      rw [List.mem_flatMap]
      exact ⟨r, List.mem_range.mpr hrp,
        List.mem_map.mpr ⟨c, List.mem_range.mpr hcp, rfl⟩⟩
    · have hxb := band_bound_1d W cols c px hcp hc1 hc2
      have hyb := band_bound_1d H rows r py hrp hr1 hr2
      unfold inRect tileRect
      dsimp only
      exact ⟨hxb.1, hxb.2, hyb.1, hyb.2⟩

/-- Witness for C7 at a 100×100 board split 2×2, point (60, 60). -/
theorem tile_coverage_witness :
    1 ≤ 2 ∧ 1 ≤ 100 ∧
      (((60 < 100 ∧ 60 < 100) ↔
        ∃ r, r < 2 ∧ ∃ c, c < 2 ∧ coreRegion 100 100 2 2 r c 60 60) ∧
      (∀ r c, r < 2 → c < 2 → coreRegion 100 100 2 2 r c 60 60 →
        tileRect 100 100 2 2 r c ∈ segmentRects 100 100 2 2 ∧
          inRect (tileRect 100 100 2 2 r c) (60 : ℤ) (60 : ℤ))) :=
  ⟨by norm_num, by norm_num,
    tile_coverage 100 100 2 2 (by norm_num) (by norm_num) (by norm_num)
      (by norm_num) 60 60⟩

/-! ## C4: blank tiles are dropped and an empty set raises no-content -/

/-- C4: every tile whose stride content scan finds no non-white sample is
dropped from the export set, and when the remaining set is empty the
export signals the no-content condition instead of emitting anything. -/
theorem blank_tiles_dropped (tiles : List (List Pixel)) :
    (∀ t, t ∈ tiles → tileHasContent t = false →
      ∀ segs, exportSegments tiles = .files segs → t ∉ segs) ∧
    (tiles.filter tileHasContent = [] → exportSegments tiles = .noContent) := by
  constructor
  · intro t ht hf segs hseg hmem
    unfold exportSegments at hseg
    by_cases hemp : (tiles.filter tileHasContent).isEmpty
    · rw [if_pos hemp] at hseg
      exact ExportOutcome.noConfusion hseg
    · rw [if_neg hemp] at hseg
      have hks : tiles.filter tileHasContent = segs :=
        (ExportOutcome.files.injEq _ _).mp hseg
      rw [← hks] at hmem
      have := (List.mem_filter.mp hmem).2
      rw [hf] at this
      exact Bool.false_ne_true this
  · intro h
    unfold exportSegments
    rw [h]
    rfl

/-- Witness for C4: a single uniformly white 2×2 tile is scanned as
contentless and the export signals no-content. -/
theorem blank_tiles_dropped_witness :
    tileHasContent (List.replicate 4 whitePx) = false ∧
      [List.replicate 4 whitePx].filter tileHasContent = [] ∧
      exportSegments [List.replicate 4 whitePx] = .noContent :=
  ⟨by decide, by decide,
    (blank_tiles_dropped [List.replicate 4 whitePx]).2 (by decide)⟩

/-! ## Soundness of the square-root comparison encoding -/

/-- The decision procedure `sqrtMulGT` agrees with the real-number
semantics of the source's magnitude comparison
`Math.sqrt(m) * k > t`. -/
theorem sqrtMulGT_correct (m k t : ℚ) (hm : 0 ≤ m) :
    sqrtMulGT m k t = true ↔ (t : ℝ) < Real.sqrt (m : ℝ) * (k : ℝ) := by
  have hmR : (0 : ℝ) ≤ (m : ℝ) := by exact_mod_cast hm
  have hs : 0 ≤ Real.sqrt (m : ℝ) := Real.sqrt_nonneg _
  have hs2 : Real.sqrt (m : ℝ) * Real.sqrt (m : ℝ) = (m : ℝ) :=
    Real.mul_self_sqrt hmR
  unfold sqrtMulGT
  rcases lt_trichotomy (0 : ℚ) k with hk | hk | hk
  · rw [if_pos hk]
    have hkR : (0 : ℝ) < (k : ℝ) := by exact_mod_cast hk
    simp only [Bool.or_eq_true, decide_eq_true_eq]
    constructor
    · rintro (ht | hlt)
      · have htR : (t : ℝ) < 0 := by exact_mod_cast ht
        exact lt_of_lt_of_le htR (mul_nonneg hs hkR.le)
      · have hltR : (t : ℝ) * (t : ℝ) < (m : ℝ) * ((k : ℝ) * (k : ℝ)) := by
          exact_mod_cast hlt
        by_cases ht0 : (t : ℝ) < 0
        · exact lt_of_lt_of_le ht0 (mul_nonneg hs hkR.le)
        · push_neg at ht0
          nlinarith [mul_nonneg hs hkR.le]
    · intro h
      by_cases ht : t < 0
      · exact Or.inl ht
      · right
        push_neg at ht
        have htR : (0 : ℝ) ≤ (t : ℝ) := by exact_mod_cast ht
        have : (t : ℝ) * (t : ℝ) < (m : ℝ) * ((k : ℝ) * (k : ℝ)) := by
          nlinarith [mul_nonneg hs hkR.le]
        exact_mod_cast this
  · rw [if_neg (by rw [← hk]; exact lt_irrefl 0), if_pos hk.symm]
    simp only [decide_eq_true_eq]
    rw [← hk]
    push_cast
    rw [mul_zero]
    exact ⟨fun h => by exact_mod_cast h, fun h => by exact_mod_cast h⟩
  · rw [if_neg (not_lt.mpr hk.le), if_neg (ne_of_lt hk)]
    have hkR : (k : ℝ) < 0 := by exact_mod_cast hk
    simp only [Bool.and_eq_true, decide_eq_true_eq]
    constructor
    · rintro ⟨ht, hlt⟩
      have htR : (t : ℝ) < 0 := by exact_mod_cast ht
      have hltR : (m : ℝ) * ((k : ℝ) * (k : ℝ)) < (t : ℝ) * (t : ℝ) := by
        exact_mod_cast hlt
      nlinarith [mul_nonneg hs (neg_nonneg.mpr hkR.le)]
    · intro h
      have hnp : Real.sqrt (m : ℝ) * (k : ℝ) ≤ 0 :=
        mul_nonpos_of_nonneg_of_nonpos hs hkR.le
      have htR : (t : ℝ) < 0 := lt_of_lt_of_le h hnp
      refine ⟨by exact_mod_cast htR, ?_⟩
      have : (m : ℝ) * ((k : ℝ) * (k : ℝ)) < (t : ℝ) * (t : ℝ) := by
        nlinarith [mul_nonneg hs (neg_nonneg.mpr hkR.le)]
      exact_mod_cast this
